import Mathlib

set_option maxHeartbeats 1000000

/-!
Shallow embedding of the f1-elo repository's rating engine and rating store.

Sources embedded:
* src/elo_calculator.py — class F1EloRating (update_ratings, get_driver_ratings)
  and class DatabaseManager (save_ratings, get_ratings, get_last_update_time);
* src/elo.py — class F1EloRating (normalize_race_position, update_ratings).

Modelling conventions:
* A pandas row of the result DataFrame is a RawRow; a missing (NaN) Driver or
  Position field is None, and dropna(subset=['Driver', 'Position']) keeps the
  rows where both fields are present.  Positions are integral (the sources
  build them with int(...) or to_numeric on integer data).
* A Python dict (the ratings attribute) is an insertion-ordered association
  list: lookup returns the entry of the key, assignment to an existing key
  replaces its value in place, assignment to a fresh key appends.
* Python floats are modelled as real numbers; 10 ** x is Real.rpow.
* self.ratings[driver] (direct dict indexing after every event driver has been
  initialised) is modelled as getD with default 0; the default is never
  reached on the paths the source exercises, because initialisation inserts
  every event driver first.
* np.mean([]) (elo_calculator.py) is NaN and sum([]) / len([]) (elo.py) raises
  ZeroDivisionError; the model's total real division gives 0 / 0 = 0 there.
  This branch is only reachable for an event whose records all carry one same
  driver; no value-level theorem below depends on a rating computed through
  it, and key-set facts are unaffected (the Python dict keeps the key, with a
  NaN value, just as the model keeps the key).
-/

/-- One raw record of an event result set: `driver` and `position` are `none`
when the corresponding DataFrame field is missing (NaN). -/
structure RawRow where
  driver : Option String
  position : Option Int

/-- A row survives `dropna(subset=['Driver', 'Position'])` iff both fields are
present; the surviving data is the (driver, position) pair. -/
def rowToValid (r : RawRow) : Option (String × Int) :=
  match r.driver, r.position with
  | some d, some p => some (d, p)
  | _, _ => none

/-- `race_results.dropna(subset=['Driver', 'Position'])`. -/
def dropna (rows : List RawRow) : List (String × Int) :=
  rows.filterMap rowToValid

/-- The ratings dict: insertion-ordered association list from driver name to
rating. -/
abbrev Ratings := List (String × ℝ)

/-- The key sequence of the dict, in insertion order. -/
def keys (rs : Ratings) : List String :=
  rs.map Prod.fst

/-- Python's `driver in self.ratings`. -/
def hasKey (rs : Ratings) (d : String) : Bool :=
  rs.any (fun p => p.1 == d)

/-- Dict lookup with a default: `self.ratings[d]` (default unreachable on the
source's paths) and `self.ratings.get(d, v0)`. -/
def getD (rs : Ratings) (d : String) (v0 : ℝ) : ℝ :=
  match rs.find? (fun p => p.1 == d) with
  | some p => p.2
  | none => v0

/-- Dict assignment `self.ratings[d] = v`: replaces in place when the key
exists, appends a fresh entry otherwise. -/
def ratingsSet (rs : Ratings) (d : String) (v : ℝ) : Ratings :=
  if hasKey rs d then rs.map (fun p => if p.1 == d then (p.1, v) else p)
  else rs ++ [(d, v)]

/-- `race_results['Driver'].unique()`: the distinct values in order of first
appearance. -/
def uniqueKeys (l : List String) : List String :=
  l.foldl (fun acc d => if acc.contains d then acc else acc ++ [d]) []

/-- The initialisation loop: `for driver in unique: if driver not in
self.ratings: self.ratings[driver] = self.initial_rating`. -/
def initDrivers (rs : Ratings) (drivers : List String) (initial : ℝ) : Ratings :=
  drivers.foldl (fun acc d => if hasKey acc d then acc else acc ++ [(d, initial)]) rs

/-- `race_results[race_results['Driver'] != driver]`. -/
def opponentsOf (rows : List (String × Int)) (d : String) : List (String × Int) :=
  rows.filter (fun r => !(r.1 == d))

/-- One pairwise Elo expected-score term: `1 / (1 + 10 ** ((opp - drv) / 400))`. -/
noncomputable def expectedOne (opp drv : ℝ) : ℝ :=
  1 / (1 + (10 : ℝ) ^ ((opp - drv) / 400))

/-- The engine state: `self.ratings`, `self.initial_rating`, `self.k_factor`. -/
structure F1EloRating where
  ratings : Ratings
  initial_rating : ℝ
  k_factor : ℝ

/-- `F1EloRating()` with the default arguments (1500, 24). -/
noncomputable def defaultElo : F1EloRating :=
  ⟨[], 1500, 24⟩

/-- elo_calculator.py line 38: `actual_score = 1 - (position - 1) /
(total_drivers - 1)` — the UNCLAMPED linear position score. -/
noncomputable def EloCalculator.actualScore (position : Int) (total_drivers : Nat) : ℝ :=
  1 - ((position : ℝ) - 1) / ((total_drivers : ℝ) - 1)

/-- The body of the per-driver loop of elo_calculator.py's update_ratings
(lines 33-47): opponents are all OTHER rows, the actual score is the unclamped
linear position score, the expected score is the mean pairwise term against
the LIVE dict `rs`, and the driver's entry is updated in place. -/
noncomputable def EloCalculator.scoreStep (st : F1EloRating) (rows : List (String × Int))
    (rs : Ratings) (row : String × Int) : Ratings :=
  let driver := row.1
  let position := row.2
  let opponents := opponentsOf rows driver
  let actual : ℝ := EloCalculator.actualScore position rows.length
  let expected : ℝ :=
    ((opponents.map (fun o => expectedOne (getD rs o.1 0) (getD rs driver 0))).sum)
      / (opponents.length : ℝ)
  ratingsSet rs driver (getD rs driver 0 + st.k_factor * (actual - expected))

/-- elo_calculator.py, F1EloRating.update_ratings (lines 18-47): drop rows
with missing driver or position, return unchanged if fewer than 2 rows remain,
initialise new drivers at the initial rating, then fold the per-driver score
step over the rows in order, mutating the shared dict as the source does. -/
noncomputable def EloCalculator.update_ratings (st : F1EloRating)
    (race_results : List RawRow) : F1EloRating :=
  let rows := dropna race_results
  if rows.length < 2 then st
  else
    let ratings1 := initDrivers st.ratings (uniqueKeys (rows.map Prod.fst)) st.initial_rating
    { st with ratings := rows.foldl (EloCalculator.scoreStep st rows) ratings1 }

/-- elo.py, F1EloRating.normalize_race_position (lines 21-23): clamp the
position to [1, total_drivers], then apply the linear position score. -/
noncomputable def Elo.normalize_race_position (position : Int) (total_drivers : Nat) : ℝ :=
  let p := max 1 (min position (total_drivers : Int))
  1 - ((p : ℝ) - 1) / ((total_drivers : ℝ) - 1)

/-- The body of the per-driver loop of elo.py's update_ratings (lines 38-54):
as in elo_calculator.py, except that positions are clamped through
normalize_race_position and an opponent missing from the dict defaults to the
initial rating (`self.ratings.get(..., self.initial_rating)`). -/
noncomputable def Elo.scoreStep (st : F1EloRating) (rows : List (String × Int))
    (rs : Ratings) (row : String × Int) : Ratings :=
  let driver := row.1
  let opponents := opponentsOf rows driver
  let actual : ℝ := Elo.normalize_race_position row.2 rows.length
  let expected : ℝ :=
    ((opponents.map (fun o =>
        expectedOne (getD rs o.1 st.initial_rating) (getD rs driver 0))).sum)
      / (opponents.length : ℝ)
  ratingsSet rs driver (getD rs driver 0 + st.k_factor * (actual - expected))

/-- elo.py, F1EloRating.update_ratings (lines 25-54). -/
noncomputable def Elo.update_ratings (st : F1EloRating)
    (race_results : List RawRow) : F1EloRating :=
  let rows := dropna race_results
  if rows.length < 2 then st
  else
    let ratings1 := initDrivers st.ratings (uniqueKeys (rows.map Prod.fst)) st.initial_rating
    { st with ratings := rows.foldl (Elo.scoreStep st rows) ratings1 }

/-!  The rating store: elo_calculator.py, class DatabaseManager.  The
driver_ratings table is a list of rows (driver_name, elo_rating,
last_updated); driver_name is the primary key.  -/

/-- The driver_ratings table. -/
abbrev DBTable := List (String × ℝ × String)

/-- Row lookup by primary key. -/
def tableLookup (t : DBTable) (d : String) : Option (ℝ × String) :=
  (t.find? (fun r => r.1 == d)).map Prod.snd

/-- `INSERT OR REPLACE INTO driver_ratings VALUES (?, ?, ?)`: replace the row
with this primary key, or insert a fresh one. -/
def upsertRow (t : DBTable) (d : String) (v : ℝ) (ts : String) : DBTable :=
  if t.any (fun r => r.1 == d) then t.map (fun r => if r.1 == d then (d, v, ts) else r)
  else t ++ [(d, v, ts)]

/-- elo_calculator.py, DatabaseManager.save_ratings (lines 163-173):
`current_time` is computed once before the loop, then every snapshot entry is
upserted with that one shared timestamp. -/
def DatabaseManager.save_ratings (t : DBTable) (ratings_df : List (String × ℝ))
    (current_time : String) : DBTable :=
  ratings_df.foldl (fun acc dr => upsertRow acc dr.1 dr.2 current_time) t

/-- `SELECT MAX(last_updated) FROM driver_ratings`: the aggregate always
yields exactly one row, whose single column is NULL (none) when the table is
empty. -/
def sqlMaxTimestamp (t : DBTable) : Option String :=
  (t.map (fun r => r.2.2)).foldl
    (fun acc s => match acc with | none => some s | some m => some (max m s)) none

/-- elo_calculator.py, DatabaseManager.get_last_update_time (lines 184-188).
`cursor.fetchone()` on the MAX aggregate always returns one (1-tuple) row, so
`result` is always truthy and the function returns the row's single column —
the `"Never"` fallback of the source is preserved below but is dead code.
The returned `none` models Python's None. -/
def DatabaseManager.get_last_update_time (t : DBTable) : Option String :=
  let result : Option (Option String) := some (sqlMaxTimestamp t)
  match result with
  | some row => row
  | none => some "Never"

/-- elo_calculator.py, DatabaseManager.get_ratings (lines 175-179):
`SELECT driver_name, elo_rating ... ORDER BY elo_rating DESC` (the relative
order of equal ratings is not specified by SQL; the model uses a stable sort,
but no theorem below depends on the tie order), then an empty DataFrame when
there are no rows. -/
noncomputable def DatabaseManager.get_ratings (t : DBTable) : List (String × ℝ) :=
  (t.map (fun r => (r.1, r.2.1))).insertionSort (fun a b => b.2 ≤ a.2)

/-- Convenience constructor for a fully-populated result record. -/
def rowOf (d : String) (p : Int) : RawRow :=
  ⟨some d, some p⟩

/-!  Theorems.  -/

lemma one_lt_ten_rpow : (1 : ℝ) < (10 : ℝ) ^ ((3 : ℝ) / 100) := by
  rw [Real.one_lt_rpow_iff_of_pos (by norm_num : (0 : ℝ) < 10)]
  left
  constructor <;> norm_num

/-- Processing the event [A 1st, B 2nd] (both drivers new, defaults 1500/24)
in DataFrame order A-then-B: B's expected score is computed against A's
ALREADY UPDATED rating 1512. -/
lemma calc_second_driver_val :
    getD (EloCalculator.update_ratings defaultElo [rowOf "A" 1, rowOf "B" 2]).ratings "B" 0 =
      1500 + 24 * (0 - 1 / (1 + (10 : ℝ) ^ ((3 : ℝ) / 100))) := by
  simp [EloCalculator.update_ratings, dropna, rowOf, rowToValid, initDrivers, uniqueKeys,
    hasKey, EloCalculator.scoreStep, EloCalculator.actualScore, opponentsOf, expectedOne,
    getD, ratingsSet, defaultElo]
  norm_num

/-- Processing the same event in the reversed order B-then-A: B is updated
first, from the pre-event snapshot, and lands exactly on 1488. -/
lemma calc_second_driver_val_rev :
    getD (EloCalculator.update_ratings defaultElo [rowOf "B" 2, rowOf "A" 1]).ratings "B" 0 =
      1488 := by
  simp [EloCalculator.update_ratings, dropna, rowOf, rowToValid, initDrivers, uniqueKeys,
    hasKey, EloCalculator.scoreStep, EloCalculator.actualScore, opponentsOf, expectedOne,
    getD, ratingsSet, defaultElo]
  norm_num

lemma calc_second_driver_ne :
    (1500 : ℝ) + 24 * (0 - 1 / (1 + (10 : ℝ) ^ ((3 : ℝ) / 100))) ≠ 1488 := by
  have ht := one_lt_ten_rpow
  have h3 : 1 / (1 + (10 : ℝ) ^ ((3 : ℝ) / 100)) < 1 / 2 := by
    apply one_div_lt_one_div_of_lt (by norm_num)
    linarith
  intro hEq
  nlinarith [h3]

/-- C1: the claim says every rating delta of an event is computed from the
snapshot of ratings as they stood before the event, so the resulting snapshot
is the same for every processing order of the event's competitors.  The code
instead mutates `self.ratings` inside the per-driver loop
(elo_calculator.py line 47), so driver B's expected score depends on whether A
was processed before B: the two row orders of the one event
{A finishes 1st, B finishes 2nd} leave B with different ratings. -/
theorem c1_update_order_dependent :
    getD (EloCalculator.update_ratings defaultElo [rowOf "A" 1, rowOf "B" 2]).ratings "B" 0 ≠
      getD (EloCalculator.update_ratings defaultElo [rowOf "B" 2, rowOf "A" 1]).ratings "B" 0 := by
  rw [calc_second_driver_val, calc_second_driver_val_rev]
  exact calc_second_driver_ne

/-- C2: the claim (spec scenario) says a fresh 2-driver event with A 1st and
B 2nd yields exactly 1512.0 and 1488.0 (deltas exactly plus and minus K/2).
The code gives A (processed first) exactly 1512, but B's expected score is
then computed against A's already-updated 1512, so B's rating is
1500 - 24/(1 + 10^(3/100)), roughly 1488.414, not 1488.0. -/
theorem c2_two_driver_scenario :
    getD (EloCalculator.update_ratings defaultElo [rowOf "A" 1, rowOf "B" 2]).ratings "A" 0 =
      1512 ∧
    getD (EloCalculator.update_ratings defaultElo [rowOf "A" 1, rowOf "B" 2]).ratings "B" 0 ≠
      1488 := by
  constructor
  · simp [EloCalculator.update_ratings, dropna, rowOf, rowToValid, initDrivers, uniqueKeys,
      hasKey, EloCalculator.scoreStep, EloCalculator.actualScore, opponentsOf, expectedOne,
      getD, ratingsSet, defaultElo]
    norm_num
  · rw [calc_second_driver_val]
    exact calc_second_driver_ne

/-- C3 (amended): the guard of both update functions
(`if len(race_results) < 2: return`) makes the update a no-op whenever fewer
than 2 RECORDS survive the dropna — this is the part of the claim the code
implements; nothing in the code checks distinct competitors. -/
theorem c3_skip_under_two_records (st st' : F1EloRating) (rr : List RawRow)
    (h : (dropna rr).length < 2) :
    EloCalculator.update_ratings st rr = st ∧ Elo.update_ratings st' rr = st' := by
  constructor
  · rw [EloCalculator.update_ratings, if_pos h]
  · rw [Elo.update_ratings, if_pos h]

/-- Witness for c3_skip_under_two_records: a single-record event (A with a
missing position was dropped, leaving one row short of two... here one record
with missing position, leaving zero valid rows) leaves the default state
untouched. -/
theorem c3_witness :
    (dropna [(⟨some "A", none⟩ : RawRow)]).length < 2 ∧
    EloCalculator.update_ratings defaultElo [⟨some "A", none⟩] = defaultElo ∧
    Elo.update_ratings defaultElo [⟨some "A", none⟩] = defaultElo :=
  ⟨by decide,
   (c3_skip_under_two_records defaultElo defaultElo [⟨some "A", none⟩] (by decide)).1,
   (c3_skip_under_two_records defaultElo defaultElo [⟨some "A", none⟩] (by decide)).2⟩

/-- C3 counterexample: an event with two records of the SAME driver has fewer
than 2 distinct competitor records, so the claim requires the snapshot to come
back exactly unchanged; but the guard counts records, not distinct drivers, so
the event is processed and driver A is inserted into the previously empty
snapshot. -/
theorem c3_counterexample :
    keys (EloCalculator.update_ratings defaultElo [rowOf "A" 1, rowOf "A" 2]).ratings = ["A"] ∧
    (EloCalculator.update_ratings defaultElo [rowOf "A" 1, rowOf "A" 2]).ratings ≠
      defaultElo.ratings := by
  have hk :
      keys (EloCalculator.update_ratings defaultElo [rowOf "A" 1, rowOf "A" 2]).ratings =
        ["A"] := by
    simp [EloCalculator.update_ratings, dropna, rowOf, rowToValid, initDrivers, uniqueKeys,
      hasKey, EloCalculator.scoreStep, EloCalculator.actualScore, opponentsOf, expectedOne,
      getD, ratingsSet, defaultElo, keys]
  refine ⟨hk, fun hEq => ?_⟩
  rw [hEq] at hk
  simp [keys, defaultElo] at hk

/-- C4 counterexample: for a 2-row event where a recorded position is 5,
elo_calculator.py's update uses the UNCLAMPED score
1 - (5 - 1) / (2 - 1) = -3, which is not the clamped value (0) and lies
outside [0, 1]. -/
theorem c4_counterexample :
    EloCalculator.actualScore 5 2 = -3 ∧
    ¬ (0 ≤ EloCalculator.actualScore 5 2) ∧
    EloCalculator.actualScore 5 2 ≠ Elo.normalize_race_position 5 2 := by
  have h1 : EloCalculator.actualScore 5 2 = -3 := by
    simp [EloCalculator.actualScore]
    norm_num
  have h2 : Elo.normalize_race_position 5 2 = 0 := by
    simp [Elo.normalize_race_position]
    norm_num
  refine ⟨h1, by rw [h1]; norm_num, by rw [h1, h2]; norm_num⟩

/-- C4 (amended): elo.py's update does clamp — normalize_race_position sends a
position p with field size n ≥ 2 to 1 - (clamp(p) - 1)/(n - 1) with clamp(p) =
max 1 (min p n), and the result always lies in [0, 1]; elo_calculator.py's
update instead uses the unclamped score (see the counterexample). -/
theorem c4_elo_normalize_clamped (p : Int) (n : Nat) (h : 2 ≤ n) :
    Elo.normalize_race_position p n =
      1 - (((max 1 (min p (n : Int)) : Int) : ℝ) - 1) / ((n : ℝ) - 1) ∧
    0 ≤ Elo.normalize_race_position p n ∧ Elo.normalize_race_position p n ≤ 1 := by
  have hn2 : (2 : ℝ) ≤ (n : ℝ) := by exact_mod_cast h
  have hn1 : (1 : ℝ) ≤ (n : ℝ) - 1 := by linarith
  have hm1 : (1 : ℤ) ≤ max 1 (min p (n : Int)) := le_max_left _ _
  have hmn : max 1 (min p (n : Int)) ≤ (n : Int) := by
    apply max_le
    · exact_mod_cast Nat.one_le_of_lt (Nat.lt_of_lt_of_le Nat.one_lt_two h)
    · exact min_le_right _ _
  have hm1' : (1 : ℝ) ≤ ((max 1 (min p (n : Int)) : Int) : ℝ) := by exact_mod_cast hm1
  have hmn' : ((max 1 (min p (n : Int)) : Int) : ℝ) ≤ (n : ℝ) := by exact_mod_cast hmn
  have heq : Elo.normalize_race_position p n =
      1 - (((max 1 (min p (n : Int)) : Int) : ℝ) - 1) / ((n : ℝ) - 1) := rfl
  have hdiv0 : 0 ≤ (((max 1 (min p (n : Int)) : Int) : ℝ) - 1) / ((n : ℝ) - 1) :=
    div_nonneg (by linarith) (by linarith)
  have hdiv1 : (((max 1 (min p (n : Int)) : Int) : ℝ) - 1) / ((n : ℝ) - 1) ≤ 1 := by
    rw [div_le_one (by linarith)]
    linarith
  exact ⟨heq, by rw [heq]; linarith, by rw [heq]; linarith⟩

/-- Witness for c4_elo_normalize_clamped: position 0 (below the valid range)
in a 3-driver field clamps to 1 and scores within [0, 1]. -/
theorem c4_witness :
    0 ≤ Elo.normalize_race_position 0 3 ∧ Elo.normalize_race_position 0 3 ≤ 1 :=
  ⟨(c4_elo_normalize_clamped 0 3 (by norm_num)).2.1,
   (c4_elo_normalize_clamped 0 3 (by norm_num)).2.2⟩

/-- The linear position score summed over positions 1..N is N/2. -/
lemma sum_actual_range (N : Nat) (h : 2 ≤ N) :
    ((List.range N).map (fun i : Nat => EloCalculator.actualScore (Int.ofNat i + 1) N)).sum =
      (N : ℝ) / 2 := by
  have hbridge :
      ((List.range N).map (fun i : Nat => EloCalculator.actualScore (Int.ofNat i + 1) N)).sum =
        ∑ i ∈ Finset.range N, EloCalculator.actualScore (Int.ofNat i + 1) N := rfl
  rw [hbridge]
  have hterm : ∀ i : Nat, EloCalculator.actualScore (Int.ofNat i + 1) N =
      1 - (i : ℝ) / ((N : ℝ) - 1) := by
    intro i
    simp [EloCalculator.actualScore]
  rw [Finset.sum_congr rfl (fun i _ => hterm i)]
  have hN2 : (2 : ℝ) ≤ (N : ℝ) := by exact_mod_cast h
  have hne : (N : ℝ) - 1 ≠ 0 := by linarith
  have hgauss : ((∑ i ∈ Finset.range N, i : ℕ) : ℝ) * 2 = (N : ℝ) * ((N : ℝ) - 1) := by
    have := Finset.sum_range_id_mul_two N
    have hcast : (((∑ i ∈ Finset.range N, i) * 2 : ℕ) : ℝ) = ((N * (N - 1) : ℕ) : ℝ) := by
      exact_mod_cast congrArg Nat.cast this
    push_cast [Nat.cast_sub (le_trans one_le_two h)] at hcast
    push_cast
    linarith [hcast]
  rw [Finset.sum_sub_distrib]
  rw [Finset.sum_const, Finset.card_range, ← Finset.sum_div]
  have hsumcast : (∑ i ∈ Finset.range N, (i : ℝ)) = ((∑ i ∈ Finset.range N, i : ℕ) : ℝ) := by
    push_cast
    rfl
  rw [hsumcast]
  field_simp
  nlinarith [hgauss]

/-- C5: for any event result set whose N ≥ 2 records hold exactly the
positions 1..N (in any order), the actual scores used by the update sum to
exactly N/2. -/
theorem c5_actual_score_sum (rows : List (String × Int))
    (h2 : 2 ≤ rows.length)
    (hperm : List.Perm (rows.map Prod.snd)
      ((List.range rows.length).map (fun i : Nat => Int.ofNat i + 1))) :
    (rows.map (fun r => EloCalculator.actualScore r.2 rows.length)).sum =
      (rows.length : ℝ) / 2 := by
  have hmm : rows.map (fun r => EloCalculator.actualScore r.2 rows.length) =
      (rows.map Prod.snd).map (fun p => EloCalculator.actualScore p rows.length) := by
    rw [List.map_map]
    rfl
  rw [hmm]
  rw [List.Perm.sum_eq (hperm.map (fun p => EloCalculator.actualScore p rows.length))]
  rw [List.map_map]
  exact sum_actual_range rows.length h2

/-- Witness for c5_actual_score_sum: the 3-driver event with positions 1, 2, 3
has actual scores summing to 3/2. -/
theorem c5_witness :
    (([("A", (1 : Int)), ("B", 2), ("C", 3)]).map
        (fun r => EloCalculator.actualScore r.2
          ([("A", (1 : Int)), ("B", 2), ("C", 3)]).length)).sum =
      (([("A", (1 : Int)), ("B", 2), ("C", 3)]).length : ℝ) / 2 :=
  c5_actual_score_sum [("A", (1 : Int)), ("B", 2), ("C", 3)] (by decide) (by decide)

lemma tableLookup_upsert_self (t : DBTable) (d : String) (v : ℝ) (ts : String) :
    tableLookup (upsertRow t d v ts) d = some (v, ts) := by
  unfold upsertRow tableLookup
  by_cases h : t.any (fun r => r.1 == d)
  · rw [if_pos h, List.find?_map]
    have hpred : ((fun r : String × ℝ × String => r.1 == d) ∘
        (fun r : String × ℝ × String => if r.1 == d then (d, v, ts) else r)) =
        fun r : String × ℝ × String => r.1 == d := by
      funext r
      by_cases hr : r.1 = d
      · simp [hr]
      · simp [hr]
    rw [hpred]
    obtain ⟨r2, hr2⟩ := Option.isSome_iff_exists.mp
      (List.find?_isSome.mpr (List.any_eq_true.mp h))
    have hp : r2.1 = d := by simpa using List.find?_some hr2
    rw [hr2]
    simp [hp]
  · rw [if_neg h, List.find?_append]
    have hnone : t.find? (fun r => r.1 == d) = none :=
      List.find?_eq_none.mpr (fun x hx hpx => h (List.any_eq_true.mpr ⟨x, hx, hpx⟩))
    simp [hnone, List.find?]

lemma tableLookup_upsert_ne (t : DBTable) (d du : String) (v : ℝ) (ts : String)
    (h : du ≠ d) : tableLookup (upsertRow t d v ts) du = tableLookup t du := by
  unfold upsertRow tableLookup
  by_cases ha : t.any (fun r => r.1 == d)
  · rw [if_pos ha, List.find?_map]
    have hpred : ((fun r : String × ℝ × String => r.1 == du) ∘
        (fun r : String × ℝ × String => if r.1 == d then (d, v, ts) else r)) =
        fun r : String × ℝ × String => r.1 == du := by
      funext r
      by_cases hr : r.1 = d
      · simp [hr]
      · simp [hr]
    rw [hpred]
    cases hfind : t.find? (fun r => r.1 == du) with
    | none => simp
    | some r1 =>
      have hp : r1.1 = du := by simpa using List.find?_some hfind
      have hprop : ¬ r1.1 = d := by
        rw [hp]
        exact h
      simp [hprop]
  · rw [if_neg ha, List.find?_append]
    have hne : (d == du) = false := by
      simp
      exact fun hx => h hx.symm
    cases hfind : t.find? (fun r => r.1 == du) with
    | some r1 => simp
    | none => simp [List.find?, hne]

lemma save_lookup_not_mem (df : List (String × ℝ)) :
    ∀ (t : DBTable) (now d : String), d ∉ df.map Prod.fst →
      tableLookup (DatabaseManager.save_ratings t df now) d = tableLookup t d := by
  induction df with
  | nil => intro t now d _; rfl
  | cons p rest ih =>
    intro t now d h
    simp only [List.map_cons, List.mem_cons, not_or] at h
    show tableLookup (DatabaseManager.save_ratings (upsertRow t p.1 p.2 now) rest now) d =
      tableLookup t d
    rw [ih _ now d h.2, tableLookup_upsert_ne t p.1 d p.2 now h.1]

lemma save_lookup_mem (df : List (String × ℝ)) :
    ∀ (t : DBTable) (now d : String) (v : ℝ), (df.map Prod.fst).Nodup → (d, v) ∈ df →
      tableLookup (DatabaseManager.save_ratings t df now) d = some (v, now) := by
  induction df with
  | nil => intro t now d v _ hmem; cases hmem
  | cons p rest ih =>
    intro t now d v hnd hmem
    simp only [List.map_cons, List.nodup_cons] at hnd
    show tableLookup (DatabaseManager.save_ratings (upsertRow t p.1 p.2 now) rest now) d =
      some (v, now)
    rcases List.mem_cons.mp hmem with heq | hrest
    · have h1 : p.1 = d := by rw [← heq]
      have h2 : p.2 = v := by rw [← heq]
      have hnot : d ∉ rest.map Prod.fst := by
        rw [← h1]
        exact hnd.1
      rw [save_lookup_not_mem rest _ now d hnot, h1, h2, tableLookup_upsert_self]
    · exact ih _ now d v hnd.2 hrest

/-- C7: save_ratings computes one timestamp before its loop and upserts every
snapshot entry with it, leaving every row whose driver is absent from the
snapshot exactly as it was (no deletion, additive merge keyed by
driver_name). -/
theorem c7_save_upsert_frame (t : DBTable) (df : List (String × ℝ)) (now d : String) :
    (d ∉ df.map Prod.fst →
      tableLookup (DatabaseManager.save_ratings t df now) d = tableLookup t d) ∧
    (∀ v : ℝ, (df.map Prod.fst).Nodup → (d, v) ∈ df →
      tableLookup (DatabaseManager.save_ratings t df now) d = some (v, now)) :=
  ⟨fun h => save_lookup_not_mem df t now d h,
   fun v hnd hmem => save_lookup_mem df t now d v hnd hmem⟩

/-- Witness for c7_save_upsert_frame: saving the one-driver snapshot A with
timestamp t1 over a store holding only X leaves X's row untouched and writes
(1512, t1) for A. -/
theorem c7_witness :
    tableLookup (DatabaseManager.save_ratings [("X", 1, "t0")] [("A", 1512)] "t1") "X" =
      some (1, "t0") ∧
    tableLookup (DatabaseManager.save_ratings [("X", 1, "t0")] [("A", 1512)] "t1") "A" =
      some (1512, "t1") :=
  ⟨(c7_save_upsert_frame [("X", 1, "t0")] [("A", 1512)] "t1" "X").1 (by simp),
   (c7_save_upsert_frame [("X", 1, "t0")] [("A", 1512)] "t1" "A").2 1512 (by simp) (by simp)⟩

/-- C8: on an empty driver_ratings table, get_ratings returns the empty
snapshot (this half of the claim holds), but get_last_update_time returns
Python's None — `SELECT MAX(last_updated)` on an empty table yields one row
whose column is NULL, and `fetchone()` therefore returns a truthy 1-tuple, so
the `"Never"` fallback of the source is unreachable. -/
theorem c8_empty_store :
    DatabaseManager.get_ratings [] = [] ∧
    DatabaseManager.get_last_update_time [] = none ∧
    DatabaseManager.get_last_update_time [] ≠ some "Never" := by
  refine ⟨rfl, rfl, ?_⟩
  intro h
  simp [DatabaseManager.get_last_update_time, sqlMaxTimestamp] at h

lemma hasKey_iff (rs : Ratings) (d : String) : hasKey rs d = true ↔ d ∈ keys rs := by
  simp only [hasKey, List.any_eq_true, keys, List.mem_map, beq_iff_eq]

lemma keys_ratingsSet (rs : Ratings) (d : String) (v : ℝ) (du : String) :
    du ∈ keys (ratingsSet rs d v) ↔ du ∈ keys rs ∨ du = d := by
  by_cases h : hasKey rs d
  · rw [ratingsSet, if_pos h]
    have hfun : (fun p : String × ℝ => ((if p.1 == d then (p.1, v) else p) : String × ℝ).1) =
        fun p : String × ℝ => p.1 := by
      funext p
      by_cases hp : p.1 = d <;> simp [hp]
    have hkeys : keys (rs.map (fun p => if p.1 == d then (p.1, v) else p)) = keys rs := by
      unfold keys
      rw [List.map_map]
      rw [show ((Prod.fst ∘ fun p : String × ℝ => if p.1 == d then (p.1, v) else p)) =
        (fun p : String × ℝ => ((if p.1 == d then (p.1, v) else p) : String × ℝ).1) from rfl]
      rw [hfun]
    rw [hkeys]
    constructor
    · exact Or.inl
    · rintro (h1 | h1)
      · exact h1
      · rw [h1]
        exact (hasKey_iff rs d).mp h
  · rw [ratingsSet, if_neg h]
    simp [keys]

lemma keys_scoreStep_calc (st : F1EloRating) (rows : List (String × Int)) (rs : Ratings)
    (row : String × Int) (du : String) :
    du ∈ keys (EloCalculator.scoreStep st rows rs row) ↔ du ∈ keys rs ∨ du = row.1 :=
  keys_ratingsSet rs row.1 _ du

lemma keys_scoreFold_calc (st : F1EloRating) (rows : List (String × Int)) (du : String) :
    ∀ (l : List (String × Int)) (rs : Ratings),
      du ∈ keys (l.foldl (EloCalculator.scoreStep st rows) rs) ↔
        du ∈ keys rs ∨ du ∈ l.map Prod.fst := by
  intro l
  induction l with
  | nil => intro rs; simp
  | cons a l ih =>
    intro rs
    rw [List.foldl_cons, ih, keys_scoreStep_calc]
    simp [List.map_cons]
    tauto

lemma keys_initDrivers (du : String) (initial : ℝ) :
    ∀ (ds : List String) (rs : Ratings),
      du ∈ keys (initDrivers rs ds initial) ↔ du ∈ keys rs ∨ du ∈ ds := by
  intro ds
  induction ds with
  | nil => intro rs; simp [initDrivers]
  | cons dd ds ih =>
    intro rs
    show du ∈ keys (initDrivers (if hasKey rs dd then rs else rs ++ [(dd, initial)]) ds initial) ↔
      du ∈ keys rs ∨ du ∈ dd :: ds
    rw [ih]
    by_cases h : hasKey rs dd
    · rw [if_pos h]
      have hdd := (hasKey_iff rs dd).mp h
      simp [List.mem_cons]
      constructor
      · tauto
      · rintro (h1 | h1 | h1)
        · tauto
        · rw [h1]; tauto
        · tauto
    · rw [if_neg h]
      simp [keys, List.mem_cons]
      tauto

lemma mem_uniqueKeys (d : String) (l : List String) : d ∈ uniqueKeys l ↔ d ∈ l := by
  have haux : ∀ (l2 : List String) (acc : List String),
      d ∈ l2.foldl (fun acc x => if acc.contains x then acc else acc ++ [x]) acc ↔
        d ∈ acc ∨ d ∈ l2 := by
    intro l2
    induction l2 with
    | nil => intro acc; simp
    | cons a l2 ih =>
      intro acc
      rw [List.foldl_cons, ih]
      by_cases h : acc.contains a
      · rw [if_pos h]
        have ha : a ∈ acc := by simpa using h
        simp [List.mem_cons]
        constructor
        · tauto
        · rintro (h1 | h1 | h1)
          · tauto
          · rw [h1]; tauto
          · tauto
      · rw [if_neg h]
        simp [List.mem_cons, List.mem_append]
        tauto
  rw [uniqueKeys, haux]
  simp

lemma keys_update_calc (st : F1EloRating) (rr : List RawRow) (du : String) :
    du ∈ keys (EloCalculator.update_ratings st rr).ratings ↔
      du ∈ keys st.ratings ∨
        (2 ≤ (dropna rr).length ∧ du ∈ (dropna rr).map Prod.fst) := by
  by_cases h : (dropna rr).length < 2
  · rw [EloCalculator.update_ratings, if_pos h]
    have : ¬ 2 ≤ (dropna rr).length := by omega
    tauto
  · rw [EloCalculator.update_ratings, if_neg h]
    have h2 : 2 ≤ (dropna rr).length := by omega
    simp only []
    rw [keys_scoreFold_calc, keys_initDrivers, mem_uniqueKeys]
    tauto

lemma keys_foldl_events (du : String) :
    ∀ (events : List (List RawRow)) (st : F1EloRating),
      du ∈ keys ((events.foldl EloCalculator.update_ratings st).ratings) ↔
        du ∈ keys st.ratings ∨
          ∃ rr, rr ∈ events ∧ 2 ≤ (dropna rr).length ∧ du ∈ (dropna rr).map Prod.fst := by
  intro events
  induction events with
  | nil => intro st; simp
  | cons e es ih =>
    intro st
    rw [List.foldl_cons, ih, keys_update_calc]
    simp only [List.mem_cons]
    constructor
    · rintro ((h1 | h1) | ⟨rr, hmem, hrest⟩)
      · tauto
      · exact Or.inr ⟨e, Or.inl rfl, h1⟩
      · exact Or.inr ⟨rr, Or.inr hmem, hrest⟩
    · rintro (h1 | ⟨rr, hmem | hmem, hrest⟩)
      · tauto
      · rw [← hmem]
        tauto
      · exact Or.inr ⟨rr, hmem, hrest⟩

/-- C9: starting from the empty snapshot, a driver is in the ratings dict
exactly when it appears in some event that passed the guard (at least 2
records after the dropna), and an entry, once present, survives every later
update (no update ever removes a key). -/
theorem c9_snapshot_keyset (events more : List (List RawRow)) (d : String) :
    (d ∈ keys ((events.foldl EloCalculator.update_ratings defaultElo).ratings) ↔
      ∃ rr, rr ∈ events ∧ 2 ≤ (dropna rr).length ∧ d ∈ (dropna rr).map Prod.fst) ∧
    (d ∈ keys ((events.foldl EloCalculator.update_ratings defaultElo).ratings) →
      d ∈ keys (((events ++ more).foldl EloCalculator.update_ratings defaultElo).ratings)) := by
  constructor
  · rw [keys_foldl_events]
    simp [keys, defaultElo]
  · intro h
    rw [List.foldl_append, keys_foldl_events]
    exact Or.inl h

/-- Witness for c9_snapshot_keyset: after the single event {A 1st, B 2nd}, A
is in the snapshot and the never-seen driver Z is not. -/
theorem c9_witness :
    "A" ∈ keys ((([[rowOf "A" 1, rowOf "B" 2]]).foldl
        EloCalculator.update_ratings defaultElo).ratings) ∧
    ¬ "Z" ∈ keys ((([[rowOf "A" 1, rowOf "B" 2]]).foldl
        EloCalculator.update_ratings defaultElo).ratings) :=
  ⟨(c9_snapshot_keyset [[rowOf "A" 1, rowOf "B" 2]] [] "A").1.mpr (by decide),
   fun h => absurd ((c9_snapshot_keyset [[rowOf "A" 1, rowOf "B" 2]] [] "Z").1.mp h) (by decide)⟩

/-- C10: under the precondition of at least 2 surviving records carrying at
least 2 distinct drivers, both divisors of the update are nonzero: the
actual-score denominator N - 1, and each driver's opponent count (the
denominator of the expected-score mean). -/
theorem c10_denominators_nonzero (rr : List RawRow)
    (h2 : 2 ≤ (dropna rr).length)
    (hd : ∃ a, a ∈ dropna rr ∧ ∃ b, b ∈ dropna rr ∧ a.1 ≠ b.1) :
    (((dropna rr).length : ℝ) - 1 ≠ 0) ∧
    ∀ row, row ∈ dropna rr → ((opponentsOf (dropna rr) row.1).length : ℝ) ≠ 0 := by
  constructor
  · have hc : (2 : ℝ) ≤ ((dropna rr).length : ℝ) := by exact_mod_cast h2
    intro hzero
    linarith
  · intro row hrow
    obtain ⟨a, ha, b, hb, hab⟩ := hd
    have hopp : opponentsOf (dropna rr) row.1 ≠ [] := by
      by_cases hra : a.1 = row.1
      · have hbne : b.1 ≠ row.1 := fun hx => hab (by rw [hra, hx])
        exact List.ne_nil_of_mem (List.mem_filter.mpr ⟨hb, by simp [hbne]⟩)
      · exact List.ne_nil_of_mem (List.mem_filter.mpr ⟨ha, by simp [hra]⟩)
    have hlen : (opponentsOf (dropna rr) row.1).length ≠ 0 := by
      intro hz
      exact hopp (List.eq_nil_of_length_eq_zero hz)
    exact_mod_cast hlen

/-- Witness for c10_denominators_nonzero at the event {A 1st, B 2nd}. -/
theorem c10_witness :
    (((dropna [rowOf "A" 1, rowOf "B" 2]).length : ℝ) - 1 ≠ 0) ∧
    ∀ row, row ∈ dropna [rowOf "A" 1, rowOf "B" 2] →
      ((opponentsOf (dropna [rowOf "A" 1, rowOf "B" 2]) row.1).length : ℝ) ≠ 0 :=
  c10_denominators_nonzero [rowOf "A" 1, rowOf "B" 2] (by decide) (by decide)
